import Mathlib

/-!
# Verification of `main.py` (DigtwinActuator)

A shallow embedding of the single-script pipeline `src/main.py`:
spreadsheet loading/normalization (`leer_promedios`), the per-folder
processing loop, table concatenation (`pd.concat`), the plot dispatch, and
the axis-unit helper (`with_units`).

Modelling conventions:
- A worksheet cell is a `Cell`: `null` models both Python `None` and pandas
  `NaN`; `num` models a numeric cell as an exact rational (Python floats are
  modelled by the rationals denoted by the source's decimal literals);
  `str` models a textual cell.
- A `DataFrame` is a list of column labels together with a list of rows,
  each row a list of cells aligned positionally with the labels.
  `openpyxl`'s `ws.values` yields rectangular row tuples, so theorems about
  row contents carry a rectangularity hypothesis where positional alignment
  matters.
-/

set_option autoImplicit false

namespace Digtwin

/-- Python `str.lower()` (main.py line 13), modelled characterwise with
`Char.toLower`; every label the script lowercases is ASCII. -/
def pyLower (s : String) : String :=
  ⟨s.data.map Char.toLower⟩

/-- Python `str.startswith(p)` (main.py line 210). -/
def pyStartsWith (s p : String) : Bool :=
  p.data.isPrefixOf s.data

/-- Python `str.endswith(p)` (main.py line 210). -/
def pyEndsWith (s p : String) : Bool :=
  List.isSuffixOf p.data s.data

/-- Replace every non-overlapping occurrence of `pat` (non-empty) in the
character list, scanning left to right. The `Nat` argument is recursion
fuel, sufficient whenever it is at least the list length. -/
def replaceListAux (pat rep : List Char) : Nat → List Char → List Char
  | _, [] => []
  | 0, s => s
  | Nat.succ n, c :: cs =>
    if pat.isPrefixOf (c :: cs) then
      rep ++ replaceListAux pat rep n (cs.drop (pat.length - 1))
    else
      c :: replaceListAux pat rep n cs

/-- Python `s.replace(pat, rep)` (main.py line 211): all non-overlapping
occurrences, left to right. (The empty-pattern case, unused by the
script, is the identity here.) -/
def pyReplace (s pat rep : String) : String :=
  if pat.data = [] then s
  else ⟨replaceListAux pat.data rep.data s.data.length s.data⟩

/-- A spreadsheet / dataframe cell value. `null` stands for Python `None`
and pandas `NaN`; `num` for numeric values; `str` for text. -/
inductive Cell where
  | null : Cell
  | num : ℚ → Cell
  | str : String → Cell
deriving DecidableEq, Repr

/-- Python `str(...)` / f-string rendering of a cell, as used by
`f"{col}_{count}"` (main.py line 75) and `f"{frecuencia}_promedios.csv"`
(line 216). `str(None)` is `"None"`. Numeric headers are rendered via the
rational's printing as a stand-in for Python float `repr`; no claim
exercises a numeric header. -/
def cellStr : Cell → String
  | Cell.null => "None"
  | Cell.num q => toString q
  | Cell.str s => s

/-- The `None → "Unnamed"` replacement applied to a header cell
(main.py lines 68-69). -/
def cellName (c : Cell) : Cell :=
  match c with
  | Cell.null => Cell.str "Unnamed"
  | c => c

/-- Python `dict` lookup (`col_count[col]` / `col not in col_count`),
modelled on an association list with unique keys. -/
def dictGet : List (Cell × Nat) → Cell → Option Nat
  | [], _ => none
  | (k, v) :: d, x => if x = k then some v else dictGet d x

/-- Python `dict` assignment `col_count[col] = v`: overwrite the existing
binding, or append a new one. -/
def dictSet : List (Cell × Nat) → Cell → Nat → List (Cell × Nat)
  | [], x, v => [(x, v)]
  | (k, w) :: d, x, v => if x = k then (k, v) :: d else (k, w) :: dictSet d x v

/-- The header-deduplication loop of `leer_promedios` (main.py lines
65-75): `col_count` is the dictionary state; a first occurrence is kept
as-is (with count 0 recorded), a repeat is suffixed with `_<count>` after
incrementing the count. -/
def dedupAux (cc : List (Cell × Nat)) : List Cell → List Cell
  | [] => []
  | c :: rest =>
    let col := cellName c
    match dictGet cc col with
    | none => col :: dedupAux (dictSet cc col 0) rest
    | some k =>
        Cell.str (cellStr col ++ "_" ++ toString (k + 1)) ::
          dedupAux (dictSet cc col (k + 1)) rest

/-- `final_cols` built from the raw header row (main.py lines 63-75). -/
def dedupCols (columns : List Cell) : List Cell :=
  dedupAux [] columns

/-- Occurrence-count formulation of header deduplication: the entry for a
header cell whose (None-replaced) name has `k` earlier occurrences is the
name itself when `k = 0` and `name_k` otherwise. Used to state the claim
about deduplication independently of the dictionary state. -/
def dedupSpecAux (prev : List Cell) : List Cell → List Cell
  | [] => []
  | c :: rest =>
    let col := cellName c
    let k := prev.count col
    (if k = 0 then col else Cell.str (cellStr col ++ "_" ++ toString k)) ::
      dedupSpecAux (col :: prev) rest

/-- Occurrence-count formulation of `dedupCols` (statement-side only). -/
def dedupSpec (columns : List Cell) : List Cell :=
  dedupSpecAux [] columns

/-- A dataframe: column labels plus rows of cells, positionally aligned. -/
structure DataFrame where
  cols : List Cell
  rows : List (List Cell)
deriving DecidableEq, Repr

/-- pandas `df.empty`: true when either axis has length 0. -/
def DataFrame.isEmptyDf (df : DataFrame) : Bool :=
  df.rows.isEmpty || df.cols.isEmpty

/-- Index of the first column with the given label, if any. -/
def firstIdx : List Cell → Cell → Option Nat
  | [], _ => none
  | x :: xs, c => if x = c then some 0 else (firstIdx xs c).map (· + 1)

/-- pandas column read `df[c]` (values of the first column labelled `c`),
`none` when the label is absent. -/
def DataFrame.col (df : DataFrame) (c : Cell) : Option (List Cell) :=
  (firstIdx df.cols c).map (fun i => df.rows.map (fun r => r.getD i Cell.null))

/-- Values of column `c`, defaulting to `[]` when absent (only used under
a presence guard, mirroring the source's `in df.columns` checks). -/
def getColVals (df : DataFrame) (c : Cell) : List Cell :=
  (df.col c).getD []

/-- pandas scalar column assignment `df[c] = v` (main.py line 78):
overwrite every column labelled `c` in place, or append a new column with
the scalar broadcast to every row. -/
def setScalarCol (df : DataFrame) (c v : Cell) : DataFrame :=
  if c ∈ df.cols then
    { cols := df.cols,
      rows := df.rows.map fun r =>
        (df.cols.zip r).map fun p => if p.1 = c then v else p.2 }
  else
    { cols := df.cols ++ [c], rows := df.rows.map fun r => r ++ [v] }

/-- pandas list column assignment `df[c] = vs` (main.py line 88), one
value per row: overwrite in place or append a new column. -/
def setListCol (df : DataFrame) (c : Cell) (vs : List Cell) : DataFrame :=
  if c ∈ df.cols then
    { cols := df.cols,
      rows := (df.rows.zip vs).map fun rv =>
        (df.cols.zip rv.1).map fun p => if p.1 = c then rv.2 else p.2 }
  else
    { cols := df.cols ++ [c],
      rows := (df.rows.zip vs).map fun rv => rv.1 ++ [rv.2] }

/-- pandas `df.rename(columns={old: new})`: relabel every column labelled
`old`; values untouched. -/
def renameCol (df : DataFrame) (old new : Cell) : DataFrame :=
  { cols := df.cols.map fun c => if c = old then new else c,
    rows := df.rows }

/-- The conditional column renaming of `leer_promedios` (main.py lines
81-84): `"slide" → "Unity theoretical"`, `"Experimental" → "Laser
experimental"`, each applied only when the source label is present. -/
def renameStep (df : DataFrame) : DataFrame :=
  let df1 :=
    if Cell.str "slide" ∈ df.cols then
      renameCol df (Cell.str "slide") (Cell.str "Unity theoretical")
    else df
  if Cell.str "Experimental" ∈ df1.cols then
    renameCol df1 (Cell.str "Experimental") (Cell.str "Laser experimental")
  else df1

/-- The force conversion `0.00079173 * 6894.76 * pressure` (main.py line
88) applied to one pressure cell; `NaN`/`None` propagates. A textual
pressure cell would raise a `TypeError` in the source; the embedding
leaves it unchanged, and every theorem about `Force` concerns numeric or
null pressure cells only. -/
def scaleCell : Cell → Cell
  | Cell.null => Cell.null
  | Cell.num q => Cell.num ((0.00079173 : ℚ) * (6894.76 : ℚ) * q)
  | Cell.str s => Cell.str s

/-- The dataframe-building and normalization part of `leer_promedios`
(main.py lines 63-90): deduplicate the header, attach the data rows, set
the `frecuencia` column, rename `slide`/`Experimental`, and derive `Force`
from `Pressure` when present. -/
def normalize (columns : List Cell) (data_rows : List (List Cell))
    (frecuencia : Cell) : DataFrame :=
  let df0 : DataFrame := ⟨dedupCols columns, data_rows⟩
  let df1 := setScalarCol df0 (Cell.str "frecuencia") frecuencia
  let df2 := renameStep df1
  if Cell.str "Pressure" ∈ df2.cols then
    setListCol df2 (Cell.str "Force")
      ((getColVals df2 (Cell.str "Pressure")).map scaleCell)
  else df2

/-- A workbook: sheet names paired with their rows of cell values
(`list(wb[name].values)`). -/
abbrev Workbook := List (String × List (List Cell))

/-- `wb.sheetnames` membership / `wb[name]` access: the first sheet with
the given name. -/
def wbLookup (wb : Workbook) (name : String) : Option (List (List Cell)) :=
  (wb.find? fun p => p.1 == name).map (·.2)

/-- Lines 57-59 of main.py: the `Promedios` sheet's rows with fully-empty
rows filtered out, `none` when the sheet is absent. -/
def promediosData (wb : Workbook) : Option (List (List Cell)) :=
  (wbLookup wb "Promedios").map fun sheet =>
    sheet.filter fun r => r.any fun c => c != Cell.null

/-- `leer_promedios` (main.py lines 42-90): read the `Promedios` sheet,
drop empty rows, require a header plus at least one data row, then build
and normalize the dataframe. The `frecuencia` argument is a cell because
the caller passes either a label string or Python `None`. -/
def leer_promedios (wb : Workbook) (frecuencia : Cell) : Option DataFrame :=
  match promediosData wb with
  | none => none
  | some data =>
    if data.length < 2 then none
    else
      match data with
      | [] => none
      | columns :: data_rows => some (normalize columns data_rows frecuencia)

/-- `with_units` (main.py lines 12-21). -/
def with_units (label : String) : String :=
  let lower := pyLower label
  if lower = "time" then label ++ " (s)"
  else if lower ∈ (["laser experimental", "unity theoretical"] : List String) then
    label ++ " (m)"
  else if lower = "force" then label ++ " (N)"
  else label

/-- `frecuencia_map` (main.py lines 33-37). -/
def frecuencia_map : List (String × String) :=
  [("frequency_1", "0.25Hz"), ("frequency_2", "0.125Hz"),
   ("frequency_3", "0.05Hz")]

/-- Python `dict.get(k)`: the mapped value, or `None` when absent
(main.py line 212). -/
def mapGet (m : List (String × String)) (k : String) : Cell :=
  match m.find? (fun p => p.1 == k) with
  | some p => Cell.str p.2
  | none => Cell.null

/-- One iteration of the per-folder file loop (main.py lines 209-217) on a
directory entry (filename, workbook contents): files not matching
`frequency_*.xlsm` are ignored; otherwise the base name is looked up in
`frecuencia_map` (possibly yielding `None`), the sheet is loaded, and a
non-empty result is kept as (frequency label, dataframe). -/
def processFile (entry : String × Workbook) : Option (Cell × DataFrame) :=
  if pyStartsWith entry.1 "frequency_" && pyEndsWith entry.1 ".xlsm" then
    let clave := pyReplace entry.1 ".xlsm" ""
    let frecuencia := mapGet frecuencia_map clave
    match leer_promedios entry.2 frecuencia with
    | none => none
    | some df => if df.isEmptyDf then none else some (frecuencia, df)
  else none

/-- The per-folder loop over a `Processing` directory listing: the kept
(label, dataframe) pairs, in discovery order. -/
def processFolder (files : List (String × Workbook)) : List (Cell × DataFrame) :=
  files.filterMap processFile

/-- `consolidado_total`: the accumulated dataframes of one folder. -/
def consolidadoTotal (files : List (String × Workbook)) : List DataFrame :=
  (processFolder files).map (·.2)

/-- The per-frequency CSV filenames written by the loop (main.py line
216): `f"{frecuencia}_promedios.csv"`. -/
def csvNames (files : List (String × Workbook)) : List String :=
  (processFolder files).map fun p => cellStr p.1 ++ "_promedios.csv"

/-- Column-order union used by `pd.concat` (outer join, `sort=False`):
columns of earlier frames first, later frames' unseen columns appended in
order of appearance. -/
def addCols (acc : List Cell) : List Cell → List Cell
  | [] => acc
  | c :: cs => if c ∈ acc then addCols acc cs else addCols (acc ++ [c]) cs

/-- Fold of `addCols` over a list of frames. -/
def unionColsFrom (acc : List Cell) : List DataFrame → List Cell
  | [] => acc
  | df :: rest => unionColsFrom (addCols acc df.cols) rest

/-- The concatenated frame's column list. -/
def unionCols (dfs : List DataFrame) : List Cell :=
  unionColsFrom [] dfs

/-- Reindex one source row into the concatenated frame's columns: a column
absent from the source frame is filled with `NaN` (pandas outer-join
fill). -/
def alignRow (cols : List Cell) (df : DataFrame) (r : List Cell) : List Cell :=
  cols.map fun c =>
    match firstIdx df.cols c with
    | some i => r.getD i Cell.null
    | none => Cell.null

/-- Rows of `pd.concat(dfs, ignore_index=True)`: every source row, in
frame order, reindexed to the union columns. -/
def concatRows (cols : List Cell) : List DataFrame → List (List Cell)
  | [] => []
  | df :: rest => df.rows.map (alignRow cols df) ++ concatRows cols rest

/-- `pd.concat(consolidado_total, ignore_index=True)` (main.py line 220). -/
def concatDFs (dfs : List DataFrame) : DataFrame :=
  ⟨unionCols dfs, concatRows (unionCols dfs) dfs⟩

/-- Entry of a concatenated row under a column label: `none` when the
label is absent, `some Cell.null` when present but null-valued. -/
def valueAt (cols : List Cell) (c : Cell) (row : List Cell) : Option Cell :=
  (firstIdx cols c).bind fun i => row[i]?

/-- The plot dispatch of the per-folder loop (main.py lines 224-246): the
base names of the charts rendered for a consolidated frame, each
conditional block guarded by its own column-subset test, followed by the
unconditional combined overlay chart. -/
def plotsProduced (df : DataFrame) : List String :=
  (if Cell.str "Unity theoretical" ∈ df.cols ∧ Cell.str "Laser experimental" ∈ df.cols
    then ["unity_vs_laser"] else []) ++
  (if Cell.str "time" ∈ df.cols ∧ Cell.str "Unity theoretical" ∈ df.cols
    then ["time_vs_unity"] else []) ++
  (if Cell.str "time" ∈ df.cols ∧ Cell.str "Laser experimental" ∈ df.cols
    then ["time_vs_laser"] else []) ++
  (if Cell.str "time" ∈ df.cols ∧ Cell.str "dac_bits" ∈ df.cols
    then ["time_vs_dac_bits"] else []) ++
  (if Cell.str "Laser experimental" ∈ df.cols ∧ Cell.str "Force" ∈ df.cols
    then ["laser_vs_force"] else []) ++
  ["time_vs_experimental_vs_theoretical"]

/-- Rectangularity: every row has exactly one cell per column label.
Holds for frames built from `openpyxl` sheets, whose `ws.values` rows are
padded to a common width. -/
def DataFrame.Rect (df : DataFrame) : Prop :=
  ∀ r ∈ df.rows, r.length = df.cols.length

/-! ## Concrete frames and workbooks used by witnesses and counterexamples -/

def dfC7a : DataFrame := ⟨[Cell.str "a"], [[Cell.num 1]]⟩

def dfC7b : DataFrame := ⟨[Cell.str "a"], [[Cell.num 2], [Cell.num 3]]⟩

def dfC3a : DataFrame := ⟨[Cell.str "a"], [[Cell.num 1]]⟩

def dfC3b : DataFrame := ⟨[Cell.str "b"], [[Cell.num 2]]⟩

def wbC2 : Workbook := [("Promedios", [[Cell.str "time"], [Cell.num 1]])]

def wbC6 : Workbook :=
  [("Promedios", [[Cell.str "Plain Experimental"], [Cell.num 1]])]

def dfC6 : DataFrame :=
  ⟨[Cell.str "slide", Cell.str "Experimental"], [[Cell.num 1, Cell.num 2]]⟩

def dfOutC6 : DataFrame :=
  ⟨[Cell.str "Plain Experimental", Cell.str "frecuencia"],
    [[Cell.num 1, Cell.str "0.25Hz"]]⟩

def wbC5 : Workbook := [("Otro", [[Cell.num 1]])]

/-- The cell in row `i`, column position `j` (`none` when out of range). -/
def cellAt (df : DataFrame) (i j : Nat) : Option Cell :=
  df.rows[i]?.bind fun r => r[j]?

/-- All rows of every sheet of the workbook have one common length, as
`openpyxl`'s `ws.values` guarantees (rows are padded to the sheet
width). -/
def SheetRect (wb : Workbook) : Prop :=
  ∀ p ∈ wb, ∀ r ∈ p.2, ∀ r2 ∈ p.2, r.length = r2.length

def wbC10 : Workbook :=
  [("Promedios",
    [[Cell.str "time", Cell.str "slide"], [Cell.num 5, Cell.num 6]])]

def dfC10 : DataFrame :=
  ⟨[Cell.str "time", Cell.str "Unity theoretical", Cell.str "frecuencia"],
    [[Cell.num 5, Cell.num 6, Cell.str "0.25Hz"]]⟩

def wbC1 : Workbook := [("Promedios", [[Cell.str "Pressure"], [Cell.num 2]])]

def dfC1 : DataFrame :=
  ⟨[Cell.str "Pressure", Cell.str "frecuencia", Cell.str "Force"],
    [[Cell.num 2, Cell.str "0.25Hz",
      Cell.num ((0.00079173 : ℚ) * (6894.76 : ℚ) * 2)]]⟩

/-! ## General lemmas -/

theorem strAppend_cancel_left {s t u : String} (h : s ++ t = s ++ u) : t = u := by
  apply String.ext
  have h2 := congrArg String.data h
  simp only [String.data_append] at h2
  exact List.append_cancel_left h2

theorem strAppend_ne_self (s t : String) (h : t.data ≠ []) : s ++ t ≠ s := by
  intro hc
  have h2 := congrArg String.data hc
  simp only [String.data_append] at h2
  have h3 := congrArg List.length h2
  simp only [List.length_append] at h3
  have : t.data.length = 0 := by omega
  exact h (List.eq_nil_of_length_eq_zero this)

theorem dictGet_dictSet_self (d : List (Cell × Nat)) (k : Cell) (v : Nat) :
    dictGet (dictSet d k v) k = some v := by
  induction d with
  | nil => simp [dictSet, dictGet]
  | cons p d ih =>
    obtain ⟨k', w⟩ := p
    by_cases h : k = k'
    · subst h; simp [dictSet, dictGet]
    · simp [dictSet, dictGet, h, ih]

theorem dictGet_dictSet_ne (d : List (Cell × Nat)) (k x : Cell) (v : Nat)
    (h : x ≠ k) : dictGet (dictSet d k v) x = dictGet d x := by
  induction d with
  | nil => simp [dictSet, dictGet, h]
  | cons p d ih =>
    obtain ⟨k', w⟩ := p
    by_cases h' : k = k'
    · subst h'; simp [dictSet, dictGet, h]
    · by_cases h'' : x = k'
      · subst h''; simp [dictSet, dictGet, h']
      · simp [dictSet, dictGet, h', h'', ih]

theorem dedupAux_eq_specAux (cols : List Cell) :
    ∀ (cc : List (Cell × Nat)) (prev : List Cell),
      (∀ x, dictGet cc x =
        if prev.count x = 0 then none else some (prev.count x - 1)) →
      dedupAux cc cols = dedupSpecAux prev cols := by
  induction cols with
  | nil => intro cc prev _; rfl
  | cons c rest ih =>
    intro cc prev hinv
    have hc := hinv (cellName c)
    simp only [dedupAux, dedupSpecAux]
    have hnext : ∀ v, prev.count (cellName c) = v → ∀ x,
        dictGet (dictSet cc (cellName c) v) x =
          if (cellName c :: prev).count x = 0 then none
          else some ((cellName c :: prev).count x - 1) := by
      intro v hv x
      by_cases hx : x = cellName c
      · subst hx
        subst hv
        rw [dictGet_dictSet_self]
        simp [List.count_cons_self]
      · rw [dictGet_dictSet_ne _ _ _ _ hx, hinv x, List.count_cons_of_ne hx]
    cases hk : prev.count (cellName c) with
    | zero =>
      rw [hk] at hc
      simp at hc
      rw [hc]
      simp only [hk, reduceIte]
      exact congrArg _ (ih _ _ (hnext 0 hk))
    | succ k =>
      rw [hk] at hc
      simp at hc
      rw [hc]
      simp only [hk, Nat.succ_ne_zero, reduceIte]
      exact congrArg _ (ih _ _ (hnext (k + 1) hk))

theorem leer_none_any_freq {wb : Workbook} {f f' : Cell}
    (h : leer_promedios wb f = none) : leer_promedios wb f' = none := by
  unfold leer_promedios at h ⊢
  cases hd : promediosData wb with
  | none => rfl
  | some data =>
    by_cases hl : data.length < 2
    · simp [hl]
    · cases data with
      | nil => exact absurd (by simp) hl
      | cons c rest =>
        rw [hd] at h
        simp [hl] at h
        subst h
        simp at hl

/-! ## Claim C4: header deduplication -/

/-- **C4.** For every header row, the column names are built in order by
replacing `None` entries with `"Unnamed"` and suffixing each repeated
(replaced) name with `_k`, where `k` counts its earlier occurrences; in
particular `["time","value","value"]` yields `["time","value","value_1"]`
and a second `None` header yields `"Unnamed_1"`. -/
theorem C4_header_dedup :
    (∀ columns : List Cell, dedupCols columns = dedupSpec columns) ∧
    dedupCols [Cell.str "time", Cell.str "value", Cell.str "value"] =
      [Cell.str "time", Cell.str "value", Cell.str "value_1"] ∧
    dedupCols [Cell.null, Cell.str "time", Cell.null] =
      [Cell.str "Unnamed", Cell.str "time", Cell.str "Unnamed_1"] := by
  refine ⟨fun columns => ?_, by decide, by decide⟩
  exact dedupAux_eq_specAux columns [] [] (fun x => by simp [dictGet])

/-! ## Claim C5: when the loader yields nothing -/

/-- **C5.** `leer_promedios` returns `None` exactly when the `Promedios`
worksheet is absent or when, after dropping fully-empty rows, fewer than
two rows (header plus at least one data row) remain; a file whose
workbook makes the loader return `None` contributes nothing to the
per-folder accumulation. -/
theorem C5_loader_none_iff (wb : Workbook) (f : Cell) :
    (leer_promedios wb f = none ↔
      wbLookup wb "Promedios" = none ∨
      ∃ data, promediosData wb = some data ∧ data.length < 2) ∧
    (leer_promedios wb f = none → ∀ name, processFile (name, wb) = none) := by
  constructor
  · unfold leer_promedios
    cases hd : promediosData wb with
    | none =>
      have hw : wbLookup wb "Promedios" = none := by
        unfold promediosData at hd
        cases hwl : wbLookup wb "Promedios"
        · rfl
        · rw [hwl] at hd
          simp at hd
      simp [hw]
    | some data =>
      have hw : wbLookup wb "Promedios" ≠ none := by
        unfold promediosData at hd
        cases hwl : wbLookup wb "Promedios"
        · rw [hwl] at hd
          simp at hd
        · simp [hwl]
      by_cases hl : data.length < 2
      · simp only [hl, reduceIte, true_iff]
        exact Or.inr ⟨data, rfl, hl⟩
      · cases data with
        | nil => exact absurd (by simp) hl
        | cons c rest =>
          simp only [hl, reduceIte]
          constructor
          · intro hfalse
            simp at hfalse
          · rintro (hcase | ⟨data', hdata', hlen⟩)
            · exact absurd hcase hw
            · injection hdata' with he
              rw [he] at hl
              exact absurd hlen hl
  · intro h name
    by_cases hb : (pyStartsWith name "frequency_" && pyEndsWith name ".xlsm") = true
    · simp only [processFile, hb, if_true]
      rw [leer_none_any_freq h]
    · simp only [processFile]
      rw [if_neg]
      simp [hb]

/-! ## Claim C9: unit suffixes are chosen case-insensitively -/

/-- **C9.** `with_units` appends `" (s)"` exactly when the lowercased
label is `"time"`, `" (m)"` exactly when it is `"laser experimental"` or
`"unity theoretical"`, `" (N)"` exactly when it is `"force"`, and
otherwise returns the label unchanged; in particular variants such as
`"TIME"` and `"Force"` receive a suffix. -/
theorem C9_with_units_case_insensitive (label : String) :
    (with_units label = label ++ " (s)" ↔ pyLower label = "time") ∧
    (with_units label = label ++ " (m)" ↔
      (pyLower label = "laser experimental" ∨
        pyLower label = "unity theoretical")) ∧
    (with_units label = label ++ " (N)" ↔ pyLower label = "force") ∧
    (pyLower label ∉
        (["time", "laser experimental", "unity theoretical", "force"] :
          List String) →
      with_units label = label) ∧
    with_units "TIME" = "TIME (s)" ∧ with_units "Force" = "Force (N)" := by
  by_cases h1 : pyLower label = "time"
  · have hv : with_units label = label ++ " (s)" := by
      simp [with_units, h1]
    refine ⟨⟨fun _ => h1, fun _ => hv⟩, ⟨fun hx => ?_, fun hx => ?_⟩,
      ⟨fun hx => ?_, fun hx => ?_⟩, fun hn => ?_, by decide, by decide⟩
    · exact absurd (strAppend_cancel_left (hv.symm.trans hx)) (by decide)
    · rcases hx with hx | hx <;> rw [h1] at hx <;> exact absurd hx (by decide)
    · exact absurd (strAppend_cancel_left (hv.symm.trans hx)) (by decide)
    · rw [h1] at hx
      exact absurd hx (by decide)
    · simp [h1] at hn
  by_cases h2 : pyLower label = "laser experimental" ∨
      pyLower label = "unity theoretical"
  · have hmem : pyLower label ∈
        (["laser experimental", "unity theoretical"] : List String) := by
      rcases h2 with h | h <;> simp [h]
    have hv : with_units label = label ++ " (m)" := by
      simp [with_units, h1, hmem]
    refine ⟨⟨fun hx => ?_, fun hx => ?_⟩, ⟨fun _ => h2, fun _ => hv⟩,
      ⟨fun hx => ?_, fun hx => ?_⟩, fun hn => ?_, by decide, by decide⟩
    · exact absurd (strAppend_cancel_left (hv.symm.trans hx)) (by decide)
    · exact absurd hx h1
    · exact absurd (strAppend_cancel_left (hv.symm.trans hx)) (by decide)
    · rcases h2 with h | h <;> rw [h] at hx <;> exact absurd hx (by decide)
    · rcases h2 with h | h <;> simp [h] at hn
  by_cases h3 : pyLower label = "force"
  · rw [not_or] at h2
    obtain ⟨h2a, h2b⟩ := h2
    have hmem : pyLower label ∉
        (["laser experimental", "unity theoretical"] : List String) := by
      simp [h2a, h2b]
    have hv : with_units label = label ++ " (N)" := by
      simp [with_units, h1, hmem, h3]
    refine ⟨⟨fun hx => ?_, fun hx => ?_⟩, ⟨fun hx => ?_, fun hx => ?_⟩,
      ⟨fun _ => h3, fun _ => hv⟩, fun hn => ?_, by decide, by decide⟩
    · exact absurd (strAppend_cancel_left (hv.symm.trans hx)) (by decide)
    · exact absurd hx h1
    · exact absurd (strAppend_cancel_left (hv.symm.trans hx)) (by decide)
    · rcases hx with hx | hx
      · exact absurd hx h2a
      · exact absurd hx h2b
    · simp [h3] at hn
  · rw [not_or] at h2
    obtain ⟨h2a, h2b⟩ := h2
    have hmem : pyLower label ∉
        (["laser experimental", "unity theoretical"] : List String) := by
      simp [h2a, h2b]
    have hv : with_units label = label := by
      simp [with_units, h1, hmem, h3]
    refine ⟨⟨fun hx => ?_, fun hx => ?_⟩, ⟨fun hx => ?_, fun hx => ?_⟩,
      ⟨fun hx => ?_, fun hx => ?_⟩, fun _ => hv, by decide, by decide⟩
    · exact absurd (hv.symm.trans hx).symm
        (strAppend_ne_self label " (s)" (by decide))
    · exact absurd hx h1
    · exact absurd (hv.symm.trans hx).symm
        (strAppend_ne_self label " (m)" (by decide))
    · rcases hx with hx | hx
      · exact absurd hx h2a
      · exact absurd hx h2b
    · exact absurd (hv.symm.trans hx).symm
        (strAppend_ne_self label " (N)" (by decide))
    · exact absurd hx h3

/-! ## Claim C8: plot dispatch -/

/-- **C8.** Each conditional chart is produced exactly when its required
column set is present in the consolidated frame — the five guards are
independent, so a skipped chart never suppresses another — and the
combined time-vs-(measured, theoretical) overlay chart is always
produced. -/
theorem C8_plot_dispatch (df : DataFrame) :
    ("unity_vs_laser" ∈ plotsProduced df ↔
      Cell.str "Unity theoretical" ∈ df.cols ∧
        Cell.str "Laser experimental" ∈ df.cols) ∧
    ("time_vs_unity" ∈ plotsProduced df ↔
      Cell.str "time" ∈ df.cols ∧ Cell.str "Unity theoretical" ∈ df.cols) ∧
    ("time_vs_laser" ∈ plotsProduced df ↔
      Cell.str "time" ∈ df.cols ∧ Cell.str "Laser experimental" ∈ df.cols) ∧
    ("time_vs_dac_bits" ∈ plotsProduced df ↔
      Cell.str "time" ∈ df.cols ∧ Cell.str "dac_bits" ∈ df.cols) ∧
    ("laser_vs_force" ∈ plotsProduced df ↔
      Cell.str "Laser experimental" ∈ df.cols ∧
        Cell.str "Force" ∈ df.cols) ∧
    "time_vs_experimental_vs_theoretical" ∈ plotsProduced df := by
  unfold plotsProduced
  split_ifs <;> simp_all

/-! ## Concatenation lemmas, claims C7 and C3 -/

theorem length_concatRows (cols : List Cell) (dfs : List DataFrame) :
    (concatRows cols dfs).length = (dfs.map fun df => df.rows.length).sum := by
  induction dfs with
  | nil => rfl
  | cons df rest ih => simp [concatRows, ih]

/-- **C7.** For a folder with at least one accumulated frequency table,
concatenation neither drops nor duplicates rows: the consolidated row
count is the sum of the per-table row counts. -/
theorem C7_concat_row_count (dfs : List DataFrame) (_h : dfs ≠ []) :
    (concatDFs dfs).rows.length = (dfs.map fun df => df.rows.length).sum :=
  length_concatRows (unionCols dfs) dfs

/-- Witness for `C7_concat_row_count` at a concrete two-table folder. -/
theorem C7_concat_row_count_witness :
    (concatDFs [dfC7a, dfC7b]).rows.length = 3 := by
  have h := C7_concat_row_count [dfC7a, dfC7b] (by decide)
  rw [h]
  decide

theorem mem_addCols (x : Cell) (cs : List Cell) :
    ∀ acc, x ∈ addCols acc cs ↔ x ∈ acc ∨ x ∈ cs := by
  induction cs with
  | nil => intro acc; simp [addCols]
  | cons c cs ih =>
    intro acc
    simp only [addCols]
    by_cases h : c ∈ acc
    · rw [if_pos h, ih]
      constructor
      · rintro (hx | hx)
        · exact Or.inl hx
        · exact Or.inr (List.mem_cons_of_mem _ hx)
      · rintro (hx | hx)
        · exact Or.inl hx
        · rcases List.mem_cons.mp hx with rfl | hx
          · exact Or.inl h
          · exact Or.inr hx
    · rw [if_neg h, ih]
      simp only [List.mem_append, List.mem_singleton, List.mem_cons]
      tauto
  
theorem mem_unionColsFrom (x : Cell) (dfs : List DataFrame) :
    ∀ acc, x ∈ unionColsFrom acc dfs ↔
      x ∈ acc ∨ ∃ df ∈ dfs, x ∈ df.cols := by
  induction dfs with
  | nil => intro acc; simp [unionColsFrom]
  | cons df rest ih =>
    intro acc
    simp only [unionColsFrom]
    rw [ih, mem_addCols]
    constructor
    · rintro ((hx | hx) | ⟨d, hd, hx⟩)
      · exact Or.inl hx
      · exact Or.inr ⟨df, List.mem_cons_self _ _, hx⟩
      · exact Or.inr ⟨d, List.mem_cons_of_mem _ hd, hx⟩
    · rintro (hx | ⟨d, hd, hx⟩)
      · exact Or.inl (Or.inl hx)
      · rcases List.mem_cons.mp hd with rfl | hd
        · exact Or.inl (Or.inr hx)
        · exact Or.inr ⟨d, hd, hx⟩

theorem firstIdx_eq_none (l : List Cell) (c : Cell) :
    firstIdx l c = none ↔ c ∉ l := by
  induction l with
  | nil => simp [firstIdx]
  | cons x xs ih =>
    simp only [firstIdx]
    by_cases h : x = c
    · simp [h]
    · simp only [if_neg h, Option.map_eq_none', ih, List.mem_cons]
      constructor
      · intro hc
        rintro (rfl | hmem)
        · exact h rfl
        · exact hc hmem
      · intro hc hmem
        exact hc (Or.inr hmem)

theorem firstIdx_getElem (l : List Cell) (c : Cell) :
    ∀ i, firstIdx l c = some i → l[i]? = some c := by
  induction l with
  | nil => intro i h; simp [firstIdx] at h
  | cons x xs ih =>
    intro i h
    simp only [firstIdx] at h
    by_cases hx : x = c
    · rw [if_pos hx] at h
      injection h with h
      subst h
      simp [hx]
    · rw [if_neg hx] at h
      cases hf : firstIdx xs c with
      | none =>
        rw [hf] at h
        simp at h
      | some j =>
        rw [hf] at h
        simp at h
        subst h
        simpa using ih j hf

theorem firstIdx_isSome_of_mem {l : List Cell} {c : Cell} (h : c ∈ l) :
    ∃ i, firstIdx l c = some i := by
  cases hf : firstIdx l c with
  | none => exact absurd ((firstIdx_eq_none l c).mp hf) (not_not_intro h)
  | some i => exact ⟨i, rfl⟩

theorem valueAt_alignRow_missing (cols : List Cell) (df : DataFrame)
    (r : List Cell) (c : Cell) (hmem : c ∈ cols) (habs : c ∉ df.cols) :
    valueAt cols c (alignRow cols df r) = some Cell.null := by
  obtain ⟨i, hi⟩ := firstIdx_isSome_of_mem hmem
  have hic := firstIdx_getElem cols c i hi
  simp only [valueAt, hi, Option.some_bind]
  simp [alignRow, List.getElem?_map, hic, (firstIdx_eq_none df.cols c).mpr habs]

theorem alignRow_mem_concatRows (cols : List Cell) (dfs : List DataFrame)
    (df : DataFrame) (r : List Cell) (hdf : df ∈ dfs) (hr : r ∈ df.rows) :
    alignRow cols df r ∈ concatRows cols dfs := by
  induction dfs with
  | nil => simp at hdf
  | cons d rest ih =>
    rcases List.mem_cons.mp hdf with rfl | hdf
    · exact List.mem_append_left _ (List.mem_map_of_mem _ hr)
    · exact List.mem_append_right _ (ih hdf)

/-- **C3, counterexample.** Concatenating a frame having only column
`"a"` with one having only column `"b"` yields a row (originating from
the first frame) whose `"b"` entry is present and null (`NaN`), not
absent as the claim states. -/
theorem C3_counterexample :
    valueAt (concatDFs [dfC3a, dfC3b]).cols (Cell.str "b")
        ((concatDFs [dfC3a, dfC3b]).rows.getD 0 []) = some Cell.null ∧
    valueAt (concatDFs [dfC3a, dfC3b]).cols (Cell.str "b")
        ((concatDFs [dfC3a, dfC3b]).rows.getD 0 []) ≠ none := by
  constructor
  · decide
  · decide

/-- **C3, amended.** The consolidated column set is the union of the
per-frequency column sets, and a row originating from a table lacking a
column carries a null (`NaN`) entry in that column — it is null-filled,
not absent. -/
theorem C3_amended_union_nullfill (dfs : List DataFrame) :
    (∀ c, c ∈ (concatDFs dfs).cols ↔ ∃ df ∈ dfs, c ∈ df.cols) ∧
    (∀ df ∈ dfs, ∀ r ∈ df.rows,
      alignRow (concatDFs dfs).cols df r ∈ (concatDFs dfs).rows ∧
      ∀ c ∈ (concatDFs dfs).cols, c ∉ df.cols →
        valueAt (concatDFs dfs).cols c (alignRow (concatDFs dfs).cols df r) =
          some Cell.null) := by
  refine ⟨fun c => ?_, fun df hdf r hr =>
    ⟨alignRow_mem_concatRows _ _ _ _ hdf hr,
      fun c hc habs => valueAt_alignRow_missing _ _ _ _ hc habs⟩⟩
  show c ∈ unionCols dfs ↔ _
  rw [unionCols, mem_unionColsFrom]
  simp

/-- Witness for `C3_amended_union_nullfill` at the concrete two-frame
input of the counterexample. -/
theorem C3_amended_union_nullfill_witness :
    alignRow (concatDFs [dfC3a, dfC3b]).cols dfC3a [Cell.num 1] ∈
        (concatDFs [dfC3a, dfC3b]).rows ∧
    valueAt (concatDFs [dfC3a, dfC3b]).cols (Cell.str "b")
        (alignRow (concatDFs [dfC3a, dfC3b]).cols dfC3a [Cell.num 1]) =
      some Cell.null := by
  have h := (C3_amended_union_nullfill [dfC3a, dfC3b]).2 dfC3a (by decide)
    [Cell.num 1] (by decide)
  exact ⟨h.1, h.2 (Cell.str "b") (by decide) (by decide)⟩

/-! ## Claim C2: unmapped frequency filenames -/

/-- **C2, counterexample.** `frequency_4.xlsm` matches the
`frequency_*.xlsm` pattern but its base name is not a key of
`frecuencia_map`; the loop still loads it (`dict.get` yields `None`),
accumulates its rows with a null `frecuencia` value, and writes a
`None_promedios.csv` — it is not skipped. -/
theorem C2_counterexample :
    processFolder [("frequency_4.xlsm", wbC2)] =
      [(Cell.null, ⟨[Cell.str "time", Cell.str "frecuencia"],
        [[Cell.num 1, Cell.null]]⟩)] ∧
    csvNames [("frequency_4.xlsm", wbC2)] = ["None_promedios.csv"] := by
  constructor
  · decide
  · decide

/-- **C2, amended.** A file in `Processing` is skipped entirely exactly
when its name fails the `frequency_*.xlsm` pattern; a pattern-matching
file with an unmapped base name is still loaded with a `None` frequency
label, and, when non-empty, contributes its rows (tagged with a null
`frecuencia`) and a `None_promedios.csv`. -/
theorem C2_amended_unmapped_files (name : String) (wb : Workbook) :
    (¬(pyStartsWith name "frequency_" = true ∧
        pyEndsWith name ".xlsm" = true) →
      processFile (name, wb) = none) ∧
    (∀ df : DataFrame,
      pyStartsWith name "frequency_" = true →
      pyEndsWith name ".xlsm" = true →
      (frecuencia_map.find? fun p => p.1 == pyReplace name ".xlsm" "") = none →
      leer_promedios wb Cell.null = some df →
      df.isEmptyDf = false →
      processFile (name, wb) = some (Cell.null, df)) := by
  constructor
  · intro h
    simp only [processFile]
    rw [if_neg]
    intro hb
    rw [Bool.and_eq_true] at hb
    exact h hb
  · intro df hs he hfind hleer hemp
    have hmg : mapGet frecuencia_map (pyReplace name ".xlsm" "") = Cell.null := by
      simp [mapGet, hfind]
    have hcond : (pyStartsWith name "frequency_" &&
        pyEndsWith name ".xlsm") = true := by
      rw [hs, he]
      rfl
    simp only [processFile, hcond, if_true, hmg, hleer, hemp,
      Bool.false_eq_true, reduceIte]

/-- Witness for `C2_amended_unmapped_files`: a non-matching filename is
skipped; the concrete unmapped `frequency_4.xlsm` is loaded with a null
label. -/
theorem C2_amended_unmapped_files_witness :
    processFile ("notes.txt", wbC2) = none ∧
    processFile ("frequency_4.xlsm", wbC2) =
      some (Cell.null, ⟨[Cell.str "time", Cell.str "frecuencia"],
        [[Cell.num 1, Cell.null]]⟩) := by
  constructor
  · exact (C2_amended_unmapped_files "notes.txt" wbC2).1 (by decide)
  · exact (C2_amended_unmapped_files "frequency_4.xlsm" wbC2).2 _
      (by decide) (by decide) (by decide) (by decide) (by decide)

/-! ## Claim C6: the column renaming -/

theorem mem_renameCol_iff {df : DataFrame} {old nw x : Cell}
    (hxn : x ≠ nw) (hxo : x ≠ old) :
    x ∈ (renameCol df old nw).cols ↔ x ∈ df.cols := by
  simp only [renameCol, List.mem_map]
  constructor
  · rintro ⟨c, hc, hcx⟩
    by_cases h : c = old
    · rw [if_pos h] at hcx
      exact absurd hcx.symm hxn
    · rw [if_neg h] at hcx
      rw [← hcx]
      exact hc
  · intro hx
    exact ⟨x, hx, by rw [if_neg hxo]⟩

theorem old_notMem_renameCol {df : DataFrame} {old nw : Cell} (h : old ≠ nw) :
    old ∉ (renameCol df old nw).cols := by
  simp only [renameCol, List.mem_map]
  rintro ⟨c, hc, hcx⟩
  by_cases hco : c = old
  · rw [if_pos hco] at hcx
    exact h hcx.symm
  · rw [if_neg hco] at hcx
    exact hco hcx

theorem slide_notMem_renameStep (df : DataFrame) :
    Cell.str "slide" ∉ (renameStep df).cols := by
  have base : ∀ d : DataFrame, Cell.str "slide" ∉ d.cols →
      Cell.str "slide" ∉
        (if Cell.str "Experimental" ∈ d.cols then
          renameCol d (Cell.str "Experimental") (Cell.str "Laser experimental")
        else d).cols := by
    intro d hd
    by_cases h : Cell.str "Experimental" ∈ d.cols
    · rw [if_pos h, mem_renameCol_iff (by decide) (by decide)]
      exact hd
    · rw [if_neg h]
      exact hd
  simp only [renameStep]
  by_cases h1 : Cell.str "slide" ∈ df.cols
  · simp only [if_pos h1]
    exact base _ (old_notMem_renameCol (by decide))
  · simp only [if_neg h1]
    exact base _ h1

theorem experimental_notMem_renameStep (df : DataFrame) :
    Cell.str "Experimental" ∉ (renameStep df).cols := by
  have base : ∀ d : DataFrame, Cell.str "Experimental" ∉
      (if Cell.str "Experimental" ∈ d.cols then
        renameCol d (Cell.str "Experimental") (Cell.str "Laser experimental")
      else d).cols := by
    intro d
    by_cases h : Cell.str "Experimental" ∈ d.cols
    · rw [if_pos h]
      exact old_notMem_renameCol (by decide)
    · rw [if_neg h]
      exact h
  simp only [renameStep]
  by_cases h1 : Cell.str "slide" ∈ df.cols
  · simp only [if_pos h1]
    exact base _
  · simp only [if_neg h1]
    exact base _

theorem renameStep_id_of_notMem {df : DataFrame}
    (h1 : Cell.str "slide" ∉ df.cols)
    (h2 : Cell.str "Experimental" ∉ df.cols) : renameStep df = df := by
  simp [renameStep, h1, h2]

theorem renameStep_rows (df : DataFrame) : (renameStep df).rows = df.rows := by
  simp only [renameStep]
  split_ifs <;> rfl

theorem renameCol_cols_getElem {df : DataFrame} {old nw : Cell} {j : Nat}
    {c : Cell} (h : df.cols[j]? = some c) :
    (renameCol df old nw).cols[j]? = some (if c = old then nw else c) := by
  simp [renameCol, List.getElem?_map, h]

theorem renameStep_cols_getElem_slide {df : DataFrame} {j : Nat}
    (h : df.cols[j]? = some (Cell.str "slide")) :
    (renameStep df).cols[j]? = some (Cell.str "Unity theoretical") := by
  have hmem : Cell.str "slide" ∈ df.cols := List.getElem?_mem h
  simp only [renameStep, if_pos hmem]
  have h1 : (renameCol df (Cell.str "slide")
      (Cell.str "Unity theoretical")).cols[j]? =
      some (Cell.str "Unity theoretical") := by
    rw [renameCol_cols_getElem h]
    simp
  by_cases h2 : Cell.str "Experimental" ∈
      (renameCol df (Cell.str "slide") (Cell.str "Unity theoretical")).cols
  · rw [if_pos h2, renameCol_cols_getElem h1]
    simp
  · rw [if_neg h2]
    exact h1

theorem renameStep_cols_getElem_exp {df : DataFrame} {j : Nat}
    (h : df.cols[j]? = some (Cell.str "Experimental")) :
    (renameStep df).cols[j]? = some (Cell.str "Laser experimental") := by
  have hmem : Cell.str "Experimental" ∈ df.cols := List.getElem?_mem h
  simp only [renameStep]
  by_cases h1 : Cell.str "slide" ∈ df.cols
  · simp only [if_pos h1]
    have h2 : (renameCol df (Cell.str "slide")
        (Cell.str "Unity theoretical")).cols[j]? =
        some (Cell.str "Experimental") := by
      rw [renameCol_cols_getElem h]
      simp
    have hm2 : Cell.str "Experimental" ∈
        (renameCol df (Cell.str "slide") (Cell.str "Unity theoretical")).cols :=
      List.getElem?_mem h2
    rw [if_pos hm2, renameCol_cols_getElem h2]
    simp
  · simp only [if_neg h1, if_pos hmem, renameCol_cols_getElem h]
    simp

theorem renameStep_cols_getElem_other {df : DataFrame} {j : Nat} {c : Cell}
    (h : df.cols[j]? = some c) (h1 : c ≠ Cell.str "slide")
    (h2 : c ≠ Cell.str "Experimental") :
    (renameStep df).cols[j]? = some c := by
  simp only [renameStep]
  have step1 : ∀ (d : DataFrame), d.cols[j]? = some c →
      ((if Cell.str "Experimental" ∈ d.cols then
        renameCol d (Cell.str "Experimental") (Cell.str "Laser experimental")
      else d)).cols[j]? = some c := by
    intro d hd
    by_cases hm : Cell.str "Experimental" ∈ d.cols
    · rw [if_pos hm, renameCol_cols_getElem hd, if_neg h2]
    · rw [if_neg hm]
      exact hd
  by_cases hm1 : Cell.str "slide" ∈ df.cols
  · simp only [if_pos hm1]
    have hdr : (renameCol df (Cell.str "slide")
        (Cell.str "Unity theoretical")).cols[j]? = some c := by
      rw [renameCol_cols_getElem h, if_neg h1]
    exact step1 _ hdr
  · simp only [if_neg hm1]
    exact step1 _ h

theorem mem_setListCol_cols {df : DataFrame} {key : Cell} {vs : List Cell}
    {x : Cell} (h : x ∈ (setListCol df key vs).cols) :
    x ∈ df.cols ∨ x = key := by
  unfold setListCol at h
  by_cases hk : key ∈ df.cols
  · rw [if_pos hk] at h
    exact Or.inl h
  · rw [if_neg hk] at h
    simp only [List.mem_append, List.mem_singleton] at h
    exact h

theorem leer_some_inv {wb : Workbook} {f : Cell} {df : DataFrame}
    (h : leer_promedios wb f = some df) :
    ∃ columns data_rows, promediosData wb = some (columns :: data_rows) ∧
      df = normalize columns data_rows f := by
  unfold leer_promedios at h
  cases hd : promediosData wb with
  | none =>
    rw [hd] at h
    simp at h
  | some data =>
    rw [hd] at h
    by_cases hl : data.length < 2
    · simp [hl] at h
    · cases data with
      | nil => exact absurd (by simp) hl
      | cons columns data_rows =>
        simp [hl] at h
        exact ⟨columns, data_rows, rfl, h.2.symm⟩

theorem normalize_no_slide_exp (columns : List Cell)
    (data_rows : List (List Cell)) (f : Cell) :
    Cell.str "slide" ∉ (normalize columns data_rows f).cols ∧
    Cell.str "Experimental" ∉ (normalize columns data_rows f).cols := by
  simp only [normalize]
  by_cases hP : Cell.str "Pressure" ∈
      (renameStep (setScalarCol ⟨dedupCols columns, data_rows⟩
        (Cell.str "frecuencia") f)).cols
  · rw [if_pos hP]
    constructor
    · intro hmem
      rcases mem_setListCol_cols hmem with hmem | heq
      · exact slide_notMem_renameStep _ hmem
      · exact absurd heq (by decide)
    · intro hmem
      rcases mem_setListCol_cols hmem with hmem | heq
      · exact experimental_notMem_renameStep _ hmem
      · exact absurd heq (by decide)
  · rw [if_neg hP]
    exact ⟨slide_notMem_renameStep _, experimental_notMem_renameStep _⟩

/-- **C6, counterexample.** The source renames `"Experimental"`, not
`"Plain Experimental"`: a worksheet whose header is the single column
`"Plain Experimental"` normalizes to a table that still exposes the
column `"Plain Experimental"`, contradicting the claim that no
normalized table exposes that name. -/
theorem C6_counterexample :
    leer_promedios wbC6 (Cell.str "0.25Hz") =
      some ⟨[Cell.str "Plain Experimental", Cell.str "frecuencia"],
        [[Cell.num 1, Cell.str "0.25Hz"]]⟩ ∧
    Cell.str "Plain Experimental" ∈
      ([Cell.str "Plain Experimental", Cell.str "frecuencia"] : List Cell) := by
  constructor
  · decide
  · decide

/-- **C6, amended.** The renaming step is idempotent and total: after it,
no column named `"slide"` or `"Experimental"` (not `"Plain
Experimental"`) remains — positions where those source columns stood are
relabelled `"Unity theoretical"` / `"Laser experimental"` with all row
values unchanged — and every table returned by `leer_promedios` exposes
neither source name. -/
theorem C6_amended_rename_idempotent_total (df : DataFrame) (wb : Workbook)
    (f : Cell) (out : DataFrame) :
    renameStep (renameStep df) = renameStep df ∧
    Cell.str "slide" ∉ (renameStep df).cols ∧
    Cell.str "Experimental" ∉ (renameStep df).cols ∧
    (renameStep df).rows = df.rows ∧
    (∀ j : Nat, df.cols[j]? = some (Cell.str "slide") →
      (renameStep df).cols[j]? = some (Cell.str "Unity theoretical")) ∧
    (∀ j : Nat, df.cols[j]? = some (Cell.str "Experimental") →
      (renameStep df).cols[j]? = some (Cell.str "Laser experimental")) ∧
    (leer_promedios wb f = some out →
      Cell.str "slide" ∉ out.cols ∧ Cell.str "Experimental" ∉ out.cols) := by
  refine ⟨renameStep_id_of_notMem (slide_notMem_renameStep df)
      (experimental_notMem_renameStep df),
    slide_notMem_renameStep df, experimental_notMem_renameStep df,
    renameStep_rows df,
    fun j hj => renameStep_cols_getElem_slide hj,
    fun j hj => renameStep_cols_getElem_exp hj,
    fun h => ?_⟩
  obtain ⟨columns, data_rows, _, hdf⟩ := leer_some_inv h
  rw [hdf]
  exact normalize_no_slide_exp columns data_rows f

/-- Witness for `C6_amended_rename_idempotent_total` on a concrete frame
holding both source columns and on the concrete workbook of the
counterexample. -/
theorem C6_amended_rename_idempotent_total_witness :
    (renameStep dfC6).cols[0]? = some (Cell.str "Unity theoretical") ∧
    (renameStep dfC6).cols[1]? = some (Cell.str "Laser experimental") ∧
    (Cell.str "slide" ∉ dfOutC6.cols ∧
      Cell.str "Experimental" ∉ dfOutC6.cols) := by
  have h := C6_amended_rename_idempotent_total dfC6 wbC6 (Cell.str "0.25Hz")
    dfOutC6
  exact ⟨h.2.2.2.2.1 0 (by decide), h.2.2.2.2.2.1 1 (by decide),
    h.2.2.2.2.2.2 (by decide)⟩

/-! ## Remaining witnesses for C5 and C9 -/

/-- Witness for `C5_loader_none_iff`: a workbook without a `Promedios`
sheet contributes nothing. -/
theorem C5_loader_none_iff_witness :
    processFile ("frequency_1.xlsm", wbC5) = none :=
  (C5_loader_none_iff wbC5 Cell.null).2 (by decide) "frequency_1.xlsm"

/-- Witness for `C9_with_units_case_insensitive`: a label outside the
unit table is returned unchanged. -/
theorem C9_with_units_case_insensitive_witness :
    with_units "dac_bits" = "dac_bits" :=
  (C9_with_units_case_insensitive "dac_bits").2.2.2.1 (by decide)

/-! ## Frame lemmas for normalization (claims C1 and C10) -/

theorem getElem?_zip_some {α β : Type} {l : List α} {l2 : List β} {i : Nat}
    {a : α} {b : β} (h1 : l[i]? = some a) (h2 : l2[i]? = some b) :
    (l.zip l2)[i]? = some (a, b) := by
  simp [List.getElem?_zip_eq_some]
  exact ⟨h1, h2⟩

theorem overwrite_row_getElem (cols r : List Cell) (key w : Cell) (j : Nat)
    (c : Cell) (hcj : cols[j]? = some c) (hrl : r.length = cols.length) :
    ((cols.zip r).map fun p => if p.1 = key then w else p.2)[j]? =
      some (if c = key then w else r.getD j Cell.null) := by
  have hj : j < cols.length := (List.getElem?_eq_some.mp hcj).1
  have hjr : j < r.length := by omega
  have hrj : r[j]? = some (r.getD j Cell.null) := by
    rw [List.getD_eq_getElem?_getD, List.getElem?_eq_getElem hjr]
    rfl
  rw [List.getElem?_map, getElem?_zip_some hcj hrj]
  rfl

theorem append_row_getElem (r : List Cell) (w : Cell) (j : Nat)
    (hj : j < r.length) : (r ++ [w])[j]? = r[j]? :=
  List.getElem?_append_left hj

theorem rect_setScalarCol {df : DataFrame} (h : df.Rect) (c v : Cell) :
    (setScalarCol df c v).Rect := by
  unfold setScalarCol
  by_cases hc : c ∈ df.cols
  · rw [if_pos hc]
    intro r hr
    simp only [List.mem_map] at hr
    obtain ⟨r0, hr0, rfl⟩ := hr
    simp [List.length_zip, h r0 hr0]
  · rw [if_neg hc]
    intro r hr
    simp only [List.mem_map] at hr
    obtain ⟨r0, hr0, rfl⟩ := hr
    simp [h r0 hr0]

theorem rect_renameCol {df : DataFrame} (h : df.Rect) (old nw : Cell) :
    (renameCol df old nw).Rect := by
  intro r hr
  simp only [renameCol, List.length_map]
  exact h r hr

theorem rect_renameStep {df : DataFrame} (h : df.Rect) :
    (renameStep df).Rect := by
  simp only [renameStep]
  split_ifs <;>
    first
      | exact h
      | exact rect_renameCol h _ _
      | exact rect_renameCol (rect_renameCol h _ _) _ _

theorem rect_setListCol {df : DataFrame} (h : df.Rect) (c : Cell)
    (vs : List Cell) : (setListCol df c vs).Rect := by
  unfold setListCol
  by_cases hc : c ∈ df.cols
  · rw [if_pos hc]
    intro r hr
    simp only [List.mem_map] at hr
    obtain ⟨rv, hrv, rfl⟩ := hr
    have := (List.of_mem_zip hrv).1
    simp [List.length_zip, h rv.1 this]
  · rw [if_neg hc]
    intro r hr
    simp only [List.mem_map] at hr
    obtain ⟨rv, hrv, rfl⟩ := hr
    have := (List.of_mem_zip hrv).1
    simp [h rv.1 this]

theorem setScalarCol_cols_getElem {df : DataFrame} {key v c : Cell} {j : Nat}
    (h : df.cols[j]? = some c) :
    (setScalarCol df key v).cols[j]? = some c := by
  unfold setScalarCol
  by_cases hk : key ∈ df.cols
  · rw [if_pos hk]
    exact h
  · rw [if_neg hk]
    exact (List.getElem?_append_left (List.getElem?_eq_some.mp h).1).trans h

theorem setListCol_cols_getElem {df : DataFrame} {key c : Cell}
    {vs : List Cell} {j : Nat} (h : df.cols[j]? = some c) :
    (setListCol df key vs).cols[j]? = some c := by
  unfold setListCol
  by_cases hk : key ∈ df.cols
  · rw [if_pos hk]
    exact h
  · rw [if_neg hk]
    exact (List.getElem?_append_left (List.getElem?_eq_some.mp h).1).trans h

theorem setScalarCol_cellAt {df : DataFrame} {key v c : Cell} {j : Nat}
    (hR : df.Rect) (h : df.cols[j]? = some c) (hc : c ≠ key) (i : Nat) :
    cellAt (setScalarCol df key v) i j = cellAt df i j := by
  have hj : j < df.cols.length := (List.getElem?_eq_some.mp h).1
  unfold setScalarCol cellAt
  by_cases hk : key ∈ df.cols
  · rw [if_pos hk]
    simp only [List.getElem?_map]
    cases hi : df.rows[i]? with
    | none => rfl
    | some r =>
      have hrl : r.length = df.cols.length := hR r (List.getElem?_mem hi)
      simp only [Option.map_some', Option.some_bind]
      rw [overwrite_row_getElem df.cols r key v j c h hrl, if_neg hc,
        List.getD_eq_getElem?_getD, List.getElem?_eq_getElem (by omega)]
      rfl
  · rw [if_neg hk]
    simp only [List.getElem?_map]
    cases hi : df.rows[i]? with
    | none => rfl
    | some r =>
      have hrl : r.length = df.cols.length := hR r (List.getElem?_mem hi)
      simp only [Option.map_some', Option.some_bind]
      exact append_row_getElem r v j (by omega)

theorem setListCol_cellAt {df : DataFrame} {key c : Cell} {vs : List Cell}
    {j : Nat} (hR : df.Rect) (hlen : vs.length = df.rows.length)
    (h : df.cols[j]? = some c) (hc : c ≠ key) (i : Nat) :
    cellAt (setListCol df key vs) i j = cellAt df i j := by
  have hj : j < df.cols.length := (List.getElem?_eq_some.mp h).1
  unfold setListCol cellAt
  by_cases hk : key ∈ df.cols
  · rw [if_pos hk]
    simp only [List.getElem?_map]
    cases hi : df.rows[i]? with
    | none =>
      have : df.rows.length ≤ i := by
        by_contra hlt
        rw [List.getElem?_eq_getElem (by omega)] at hi
        exact Option.noConfusion hi
      rw [List.getElem?_eq_none]
      · rfl
      · rw [List.length_zip]
        omega
    | some r =>
      have hil : i < df.rows.length := (List.getElem?_eq_some.mp hi).1
      have hvi : vs[i]? = some (vs.getD i Cell.null) := by
        rw [List.getD_eq_getElem?_getD, List.getElem?_eq_getElem (by omega)]
        rfl
      have hrl : r.length = df.cols.length := hR r (List.getElem?_mem hi)
      rw [getElem?_zip_some hi hvi]
      simp only [Option.map_some', Option.some_bind]
      rw [overwrite_row_getElem df.cols r key (vs.getD i Cell.null) j c h hrl,
        if_neg hc, List.getD_eq_getElem?_getD,
        List.getElem?_eq_getElem (show j < r.length by omega)]
      rfl
  · rw [if_neg hk]
    simp only [List.getElem?_map]
    cases hi : df.rows[i]? with
    | none =>
      have : df.rows.length ≤ i := by
        by_contra hlt
        rw [List.getElem?_eq_getElem (by omega)] at hi
        exact Option.noConfusion hi
      rw [List.getElem?_eq_none]
      · rfl
      · rw [List.length_zip]
        omega
    | some r =>
      have hil : i < df.rows.length := (List.getElem?_eq_some.mp hi).1
      have hvi : vs[i]? = some (vs.getD i Cell.null) := by
        rw [List.getD_eq_getElem?_getD, List.getElem?_eq_getElem (by omega)]
        rfl
      have hrl : r.length = df.cols.length := hR r (List.getElem?_mem hi)
      rw [getElem?_zip_some hi hvi]
      simp only [Option.map_some', Option.some_bind]
      exact append_row_getElem r _ j (by omega)

theorem renameStep_cellAt (df : DataFrame) (i j : Nat) :
    cellAt (renameStep df) i j = cellAt df i j := by
  unfold cellAt
  rw [renameStep_rows]

theorem firstIdx_append_of_some {l l2 : List Cell} {c : Cell} {i : Nat}
    (h : firstIdx l c = some i) : firstIdx (l ++ l2) c = some i := by
  induction l generalizing i with
  | nil => simp [firstIdx] at h
  | cons x xs ih =>
    simp only [firstIdx, List.cons_append, List.append_eq] at h ⊢
    by_cases hx : x = c
    · rwa [if_pos hx] at h ⊢
    · rw [if_neg hx] at h ⊢
      cases hf : firstIdx xs c with
      | none =>
        rw [hf] at h
        simp at h
      | some j =>
        rw [hf] at h
        simp at h
        rw [ih hf]
        simp [h]

theorem firstIdx_append_self {l : List Cell} {key : Cell} (h : key ∉ l) :
    firstIdx (l ++ [key]) key = some l.length := by
  induction l with
  | nil => simp [firstIdx]
  | cons x xs ih =>
    have hxk : ¬(x = key) := by
      intro he
      subst he
      exact h (List.mem_cons_self _ _)
    simp only [List.cons_append, List.append_eq, firstIdx, if_neg hxk]
    rw [ih (fun hm => h (List.mem_cons_of_mem _ hm))]
    rfl

theorem zip_overwrite_map_getD_other (cols : List Cell) (key : Cell) (i : Nat)
    (c : Cell) (hci : cols[i]? = some c) (hck : c ≠ key) :
    ∀ (rows : List (List Cell)) (vs : List Cell), vs.length = rows.length →
      (∀ r ∈ rows, r.length = cols.length) →
      (((rows.zip vs).map fun rv =>
        (cols.zip rv.1).map fun p => if p.1 = key then rv.2 else p.2).map
          fun r => r.getD i Cell.null) =
        rows.map fun r => r.getD i Cell.null := by
  intro rows
  induction rows with
  | nil => intro vs _ _; rfl
  | cons r rows ih =>
    intro vs hlen hrect
    cases vs with
    | nil => simp at hlen
    | cons v vs =>
      simp only [List.zip_cons_cons, List.map_cons]
      congr 1
      · have hrl := hrect r (List.mem_cons_self _ _)
        rw [List.getD_eq_getElem?_getD,
          overwrite_row_getElem cols r key v i c hci hrl, if_neg hck]
        rw [List.getD_eq_getElem?_getD]
        have hil : i < cols.length := (List.getElem?_eq_some.mp hci).1
        rw [List.getElem?_eq_getElem (show i < r.length by omega)]
        rfl
      · exact ih vs (by simpa using hlen)
          (fun r2 h2 => hrect r2 (List.mem_cons_of_mem _ h2))

theorem zip_overwrite_map_getD_self (cols : List Cell) (key : Cell) (i : Nat)
    (hci : cols[i]? = some key) :
    ∀ (rows : List (List Cell)) (vs : List Cell), vs.length = rows.length →
      (∀ r ∈ rows, r.length = cols.length) →
      (((rows.zip vs).map fun rv =>
        (cols.zip rv.1).map fun p => if p.1 = key then rv.2 else p.2).map
          fun r => r.getD i Cell.null) = vs := by
  intro rows
  induction rows with
  | nil =>
    intro vs hlen _
    simp at hlen
    simp [hlen]
  | cons r rows ih =>
    intro vs hlen hrect
    cases vs with
    | nil => simp at hlen
    | cons v vs =>
      simp only [List.zip_cons_cons, List.map_cons]
      congr 1
      · have hrl := hrect r (List.mem_cons_self _ _)
        rw [List.getD_eq_getElem?_getD,
          overwrite_row_getElem cols r key v i key hci hrl, if_pos rfl]
        rfl
      · exact ih vs (by simpa using hlen)
          (fun r2 h2 => hrect r2 (List.mem_cons_of_mem _ h2))

theorem zip_append_map_getD_left (cols : List Cell) (i : Nat)
    (hi : i < cols.length) :
    ∀ (rows : List (List Cell)) (vs : List Cell), vs.length = rows.length →
      (∀ r ∈ rows, r.length = cols.length) →
      (((rows.zip vs).map fun rv => rv.1 ++ [rv.2]).map
          fun r => r.getD i Cell.null) =
        rows.map fun r => r.getD i Cell.null := by
  intro rows
  induction rows with
  | nil => intro vs _ _; rfl
  | cons r rows ih =>
    intro vs hlen hrect
    cases vs with
    | nil => simp at hlen
    | cons v vs =>
      simp only [List.zip_cons_cons, List.map_cons]
      congr 1
      · have hrl := hrect r (List.mem_cons_self _ _)
        rw [List.getD_eq_getElem?_getD,
          append_row_getElem r v i (by omega), ← List.getD_eq_getElem?_getD]
      · exact ih vs (by simpa using hlen)
          (fun r2 h2 => hrect r2 (List.mem_cons_of_mem _ h2))

theorem zip_append_map_getD_self (cols : List Cell) :
    ∀ (rows : List (List Cell)) (vs : List Cell), vs.length = rows.length →
      (∀ r ∈ rows, r.length = cols.length) →
      (((rows.zip vs).map fun rv => rv.1 ++ [rv.2]).map
          fun r => r.getD cols.length Cell.null) = vs := by
  intro rows
  induction rows with
  | nil =>
    intro vs hlen _
    simp at hlen
    simp [hlen]
  | cons r rows ih =>
    intro vs hlen hrect
    cases vs with
    | nil => simp at hlen
    | cons v vs =>
      simp only [List.zip_cons_cons, List.map_cons]
      congr 1
      · have hrl := hrect r (List.mem_cons_self _ _)
        rw [List.getD_eq_getElem?_getD, ← hrl]
        simp
      · exact ih vs (by simpa using hlen)
          (fun r2 h2 => hrect r2 (List.mem_cons_of_mem _ h2))

theorem col_eq_getColVals {df : DataFrame} {c : Cell} (h : c ∈ df.cols) :
    df.col c = some (getColVals df c) := by
  obtain ⟨i, hi⟩ := firstIdx_isSome_of_mem h
  simp [DataFrame.col, getColVals, hi]

theorem setListCol_col_self {df : DataFrame} {key : Cell} {vs : List Cell}
    (hR : df.Rect) (hlen : vs.length = df.rows.length) :
    (setListCol df key vs).col key = some vs := by
  unfold setListCol
  by_cases hk : key ∈ df.cols
  · obtain ⟨i0, hi0⟩ := firstIdx_isSome_of_mem hk
    have hci0 := firstIdx_getElem _ _ _ hi0
    rw [if_pos hk]
    simp only [DataFrame.col, hi0, Option.map_some']
    congr 1
    exact zip_overwrite_map_getD_self df.cols key i0 hci0 df.rows vs hlen hR
  · rw [if_neg hk]
    simp only [DataFrame.col]
    rw [firstIdx_append_self hk]
    simp only [Option.map_some']
    congr 1
    exact zip_append_map_getD_self df.cols df.rows vs hlen hR

theorem setListCol_col_other {df : DataFrame} {key c : Cell} {vs : List Cell}
    (hR : df.Rect) (hlen : vs.length = df.rows.length) (hck : c ≠ key)
    (hc : c ∈ df.cols) :
    (setListCol df key vs).col c = df.col c := by
  obtain ⟨i, hi⟩ := firstIdx_isSome_of_mem hc
  have hci := firstIdx_getElem _ _ _ hi
  unfold setListCol
  by_cases hk : key ∈ df.cols
  · rw [if_pos hk]
    simp only [DataFrame.col, hi, Option.map_some']
    congr 1
    exact zip_overwrite_map_getD_other df.cols key i c hci hck df.rows vs
      hlen hR
  · rw [if_neg hk]
    simp only [DataFrame.col, hi, Option.map_some']
    rw [firstIdx_append_of_some hi]
    simp only [Option.map_some']
    congr 1
    have hil : i < df.cols.length := (List.getElem?_eq_some.mp hci).1
    exact zip_append_map_getD_left df.cols i hil df.rows vs hlen hR

theorem dedupAux_length (cols : List Cell) :
    ∀ cc, (dedupAux cc cols).length = cols.length := by
  induction cols with
  | nil => intro _; rfl
  | cons c rest ih =>
    intro cc
    simp only [dedupAux]
    cases dictGet cc (cellName c) <;> simp [ih]

theorem dedupCols_length (cols : List Cell) :
    (dedupCols cols).length = cols.length :=
  dedupAux_length cols []

theorem rect_of_sheetRect {wb : Workbook} {columns : List Cell}
    {data_rows : List (List Cell)} (hs : SheetRect wb)
    (hd : promediosData wb = some ((columns : List Cell) :: data_rows)) :
    (⟨dedupCols columns, data_rows⟩ : DataFrame).Rect := by
  unfold promediosData at hd
  cases hwl : wbLookup wb "Promedios" with
  | none =>
    rw [hwl] at hd
    simp at hd
  | some sheet =>
    rw [hwl] at hd
    simp only [Option.map_some', Option.some.injEq] at hd
    have hsheet : ∀ r ∈ sheet, ∀ r2 ∈ sheet, r.length = r2.length := by
      unfold wbLookup at hwl
      cases hf : wb.find? (fun p => p.1 == "Promedios") with
      | none =>
        rw [hf] at hwl
        simp at hwl
      | some pr =>
        rw [hf] at hwl
        simp only [Option.map_some', Option.some.injEq] at hwl
        have hpr := List.mem_of_find?_eq_some hf
        rw [← hwl]
        exact hs pr hpr
    intro r hr
    have hcol_mem : columns ∈ sheet := by
      have hx : columns ∈ sheet.filter fun r => r.any fun c => c != Cell.null := by
        rw [hd]
        exact List.mem_cons_self _ _
      exact List.mem_of_mem_filter hx
    have hr_mem : r ∈ sheet := by
      have hx : r ∈ sheet.filter fun r => r.any fun c => c != Cell.null := by
        rw [hd]
        exact List.mem_cons_of_mem _ hr
      exact List.mem_of_mem_filter hx
    have hrc := hsheet r hr_mem columns hcol_mem
    simpa [dedupCols_length] using hrc

theorem setScalarCol_rows_length (df : DataFrame) (c v : Cell) :
    (setScalarCol df c v).rows.length = df.rows.length := by
  unfold setScalarCol
  split_ifs <;> simp

theorem setListCol_rows_length {df : DataFrame} {c : Cell} {vs : List Cell}
    (hlen : vs.length = df.rows.length) :
    (setListCol df c vs).rows.length = df.rows.length := by
  unfold setListCol
  split_ifs <;> simp [List.length_zip, hlen]

theorem getColVals_length {df : DataFrame} {c : Cell} (h : c ∈ df.cols) :
    (getColVals df c).length = df.rows.length := by
  obtain ⟨i, hi⟩ := firstIdx_isSome_of_mem h
  simp [getColVals, DataFrame.col, hi]

theorem normalize_rows_length (columns : List Cell)
    (data_rows : List (List Cell)) (f : Cell) :
    (normalize columns data_rows f).rows.length = data_rows.length := by
  simp only [normalize]
  have l1 : (setScalarCol ⟨dedupCols columns, data_rows⟩
      (Cell.str "frecuencia") f).rows.length = data_rows.length :=
    setScalarCol_rows_length _ _ _
  have l2 : (renameStep (setScalarCol ⟨dedupCols columns, data_rows⟩
      (Cell.str "frecuencia") f)).rows.length = data_rows.length := by
    rw [show (renameStep (setScalarCol ⟨dedupCols columns, data_rows⟩
        (Cell.str "frecuencia") f)).rows =
      (setScalarCol ⟨dedupCols columns, data_rows⟩
        (Cell.str "frecuencia") f).rows from renameStep_rows _]
    exact l1
  by_cases hP : Cell.str "Pressure" ∈
      (renameStep (setScalarCol ⟨dedupCols columns, data_rows⟩
        (Cell.str "frecuencia") f)).cols
  · rw [if_pos hP]
    rw [setListCol_rows_length (by simp [getColVals_length hP])]
    exact l2
  · rw [if_neg hP]
    exact l2

theorem normalize_frame (columns : List Cell) (data_rows : List (List Cell))
    (f : Cell) (hR0 : (⟨dedupCols columns, data_rows⟩ : DataFrame).Rect)
    (j : Nat) (c : Cell) (hjc : (dedupCols columns)[j]? = some c)
    (h1 : c ≠ Cell.str "slide") (h2 : c ≠ Cell.str "Experimental")
    (h3 : c ≠ Cell.str "frecuencia") (h4 : c ≠ Cell.str "Force") :
    (normalize columns data_rows f).cols[j]? = some c ∧
    ∀ i : Nat, cellAt (normalize columns data_rows f) i j =
      cellAt ⟨dedupCols columns, data_rows⟩ i j := by
  simp only [normalize]
  have hR1 : (setScalarCol ⟨dedupCols columns, data_rows⟩
      (Cell.str "frecuencia") f).Rect := rect_setScalarCol hR0 _ _
  have hR2 : (renameStep (setScalarCol ⟨dedupCols columns, data_rows⟩
      (Cell.str "frecuencia") f)).Rect := rect_renameStep hR1
  have hc1 : (setScalarCol ⟨dedupCols columns, data_rows⟩
      (Cell.str "frecuencia") f).cols[j]? = some c :=
    setScalarCol_cols_getElem hjc
  have hc2 : (renameStep (setScalarCol ⟨dedupCols columns, data_rows⟩
      (Cell.str "frecuencia") f)).cols[j]? = some c :=
    renameStep_cols_getElem_other hc1 h1 h2
  have hcell1 : ∀ i : Nat, cellAt (setScalarCol ⟨dedupCols columns, data_rows⟩
      (Cell.str "frecuencia") f) i j =
      cellAt ⟨dedupCols columns, data_rows⟩ i j :=
    setScalarCol_cellAt hR0 hjc h3
  have hcell2 : ∀ i : Nat, cellAt (renameStep
      (setScalarCol ⟨dedupCols columns, data_rows⟩
        (Cell.str "frecuencia") f)) i j =
      cellAt (setScalarCol ⟨dedupCols columns, data_rows⟩
        (Cell.str "frecuencia") f) i j :=
    fun i => renameStep_cellAt _ i j
  by_cases hP : Cell.str "Pressure" ∈
      (renameStep (setScalarCol ⟨dedupCols columns, data_rows⟩
        (Cell.str "frecuencia") f)).cols
  · rw [if_pos hP]
    refine ⟨setListCol_cols_getElem hc2, fun i => ?_⟩
    rw [setListCol_cellAt hR2 (by simp [getColVals_length hP]) hc2 h4 i,
      hcell2 i, hcell1 i]
  · rw [if_neg hP]
    exact ⟨hc2, fun i => (hcell2 i).trans (hcell1 i)⟩

/-! ## Claim C10: the normalization frame property -/

/-- **C10.** For every successfully loaded worksheet, normalization
touches only `"slide"`/`"Experimental"` (renamed), `"frecuencia"` (set on
every row), and — when a `"Pressure"` column is present — `"Force"`;
every column position of the deduplicated header carrying any other label
keeps that label and all of its cell values. -/
theorem C10_normalization_frame (wb : Workbook) (f : Cell) (df : DataFrame)
    (hrect : SheetRect wb) (h : leer_promedios wb f = some df) :
    ∃ columns data_rows,
      promediosData wb = some (columns :: data_rows) ∧
      df.rows.length = data_rows.length ∧
      ∀ j : Nat, ∀ c : Cell, (dedupCols columns)[j]? = some c →
        c ≠ Cell.str "slide" → c ≠ Cell.str "Experimental" →
        c ≠ Cell.str "frecuencia" → c ≠ Cell.str "Force" →
        df.cols[j]? = some c ∧
        ∀ i : Nat, cellAt df i j =
          cellAt ⟨dedupCols columns, data_rows⟩ i j := by
  obtain ⟨columns, data_rows, hd, hdf⟩ := leer_some_inv h
  have hR0 : (⟨dedupCols columns, data_rows⟩ : DataFrame).Rect :=
    rect_of_sheetRect hrect hd
  subst hdf
  exact ⟨columns, data_rows, hd, normalize_rows_length columns data_rows f,
    fun j c hjc h1 h2 h3 h4 =>
      normalize_frame columns data_rows f hR0 j c hjc h1 h2 h3 h4⟩

/-- Witness for `C10_normalization_frame`: the untouched `"time"` column
of a concrete workbook keeps its label and value. -/
theorem C10_normalization_frame_witness :
    dfC10.cols[0]? = some (Cell.str "time") ∧
    cellAt dfC10 0 0 = some (Cell.num 5) := by
  obtain ⟨columns, data_rows, hd, _hlen, hframe⟩ :=
    C10_normalization_frame wbC10 (Cell.str "0.25Hz") dfC10
      (by unfold SheetRect; decide) (by decide)
  have hcd : columns = [Cell.str "time", Cell.str "slide"] ∧
      data_rows = [[Cell.num 5, Cell.num 6]] := by
    have : promediosData wbC10 =
        some ([Cell.str "time", Cell.str "slide"] ::
          [[Cell.num 5, Cell.num 6]]) := by decide
    rw [this] at hd
    injection hd with hd
    exact ⟨(List.cons.inj hd).1.symm ▸ rfl, by
      have := (List.cons.inj hd).2
      exact this.symm ▸ rfl⟩
  obtain ⟨hcols, hrows⟩ := hcd
  subst hcols
  subst hrows
  have h := hframe 0 (Cell.str "time") (by decide) (by decide) (by decide)
    (by decide) (by decide)
  refine ⟨h.1, ?_⟩
  rw [h.2 0]
  decide

/-! ## Claim C1: the derived force column -/

/-- **C1.** Whenever the loaded table has a `"Pressure"` column, the
returned table has a `"Force"` column whose every entry is the pressure
entry scaled by exactly `0.00079173 * 6894.76` (null pressure cells
propagate as null). -/
theorem C1_force_column (wb : Workbook) (f : Cell) (df : DataFrame)
    (hrect : SheetRect wb) (h : leer_promedios wb f = some df)
    (hp : Cell.str "Pressure" ∈ df.cols) :
    ∃ ps, df.col (Cell.str "Pressure") = some ps ∧
      df.col (Cell.str "Force") = some (ps.map scaleCell) ∧
      ∀ q : ℚ, scaleCell (Cell.num q) =
        Cell.num ((0.00079173 : ℚ) * (6894.76 : ℚ) * q) := by
  obtain ⟨columns, data_rows, hd, hdf⟩ := leer_some_inv h
  have hR0 : (⟨dedupCols columns, data_rows⟩ : DataFrame).Rect :=
    rect_of_sheetRect hrect hd
  have hR2 : (renameStep (setScalarCol ⟨dedupCols columns, data_rows⟩
      (Cell.str "frecuencia") f)).Rect :=
    rect_renameStep (rect_setScalarCol hR0 _ _)
  subst hdf
  simp only [normalize] at hp ⊢
  by_cases hP : Cell.str "Pressure" ∈
      (renameStep (setScalarCol ⟨dedupCols columns, data_rows⟩
        (Cell.str "frecuencia") f)).cols
  · rw [if_pos hP] at hp ⊢
    refine ⟨getColVals (renameStep (setScalarCol ⟨dedupCols columns,
      data_rows⟩ (Cell.str "frecuencia") f)) (Cell.str "Pressure"),
      ?_, ?_, fun q => rfl⟩
    · rw [setListCol_col_other hR2 (by simp [getColVals_length hP])
        (by decide) hP]
      exact col_eq_getColVals hP
    · exact setListCol_col_self hR2 (by simp [getColVals_length hP])
  · rw [if_neg hP] at hp
    exact absurd hp hP

/-- Witness for `C1_force_column` at a concrete one-row workbook with a
pressure of 2. -/
theorem C1_force_column_witness :
    dfC1.col (Cell.str "Force") =
      some ((getColVals dfC1 (Cell.str "Pressure")).map scaleCell) := by
  obtain ⟨ps, h1, h2, _⟩ := C1_force_column wbC1 (Cell.str "0.25Hz") dfC1
    (by unfold SheetRect; decide) (by rfl) (by decide)
  rw [h2]
  have hps : getColVals dfC1 (Cell.str "Pressure") = ps := by
    simp [getColVals, h1]
  rw [hps]

end Digtwin
